import Mathlib

/-!
Verification of the live-transcription core (`live_transcribe.py`).

The source program is embedded shallowly:
* audio samples are real numbers, an audio block is a `List ℝ`;
* the module-level configuration constants become an explicit `Config`
  record (the source's values are `defaultConfig`);
* the capture-loop body of `main` (lines 130-173) becomes the pure step
  function `captureStep` (the VAD state machine) and `loopIter` (the loop
  body including the overflow warning); repeated iteration is `runCapture`;
* `calibrate_noise` becomes a function from the (possibly failed) blocking
  recording to `Except CalibrationError ℝ` — a raised exception from the
  audio source is the `readError` case, the `ValueError` raised by
  `np.split` on zero sections is the `splitError` case;
* the transcription worker thread becomes `transcribe_worker`, a function
  from the finite list of queue entries (in FIFO order, `none` being the
  `None` shutdown sentinel) to the list of delivered texts and the number
  of `task_done` acknowledgements.
-/

namespace LiveTranscribe

/-- The module-level configuration constants of the source, gathered into a
record so that theorems can quantify over them.  `sampleRate` is
`SAMPLE_RATE`, `blockSize` is `BLOCK_SIZE`, `silenceThresholdMultiplier` is
`SILENCE_THRESHOLD_MULTIPLIER`, `silenceDuration` is `SILENCE_DURATION`,
`minRecordingDuration` is `MIN_RECORDING_DURATION`, and `minThresholdFloor`
is the local constant `min_threshold` of `calibrate_noise`. -/
structure Config where
  sampleRate : ℕ
  blockSize : ℕ
  silenceThresholdMultiplier : ℝ
  silenceDuration : ℝ
  minRecordingDuration : ℝ
  minThresholdFloor : ℝ

/-- The source's constant values: `SAMPLE_RATE = 16000`, `BLOCK_SIZE = 1024`,
`SILENCE_THRESHOLD_MULTIPLIER = 2.0`, `SILENCE_DURATION = 2.0`,
`MIN_RECORDING_DURATION = 0.5`, `min_threshold = 0.001`. -/
noncomputable def defaultConfig : Config where
  sampleRate := 16000
  blockSize := 1024
  silenceThresholdMultiplier := 2
  silenceDuration := 2
  minRecordingDuration := 1/2
  minThresholdFloor := 1/1000

/-- `calculate_rms(audio_chunk) = np.sqrt(np.mean(audio_chunk**2))`. -/
noncomputable def calculate_rms (audio_chunk : List ℝ) : ℝ :=
  Real.sqrt ((audio_chunk.map (fun x => x ^ 2)).sum / (audio_chunk.length : ℝ))

/-- `np.max` on a list of scalars (the source only applies it to a nonempty
list; the `[]` case is junk). -/
noncomputable def listMax : List ℝ → ℝ
  | [] => 0
  | x :: xs => xs.foldl max x

/-- Splitting a list into `n` consecutive chunks of `k` elements each
(`n` acts as fuel, so the function is total). -/
def chunkExact {α : Type} : ℕ → ℕ → List α → List (List α)
  | 0, _, _ => []
  | n + 1, k, l => l.take k :: chunkExact n k (l.drop k)

/-- `np.split(l, n)` with an integer number of sections: raises (returns
`none`) when `n = 0` or when `n` does not divide `len(l)` evenly; otherwise
splits `l` into `n` equal consecutive sections. -/
def npSplit {α : Type} (l : List α) (n : ℕ) : Option (List (List α)) :=
  if n = 0 then none
  else if l.length % n ≠ 0 then none
  else some (chunkExact n (l.length / n) l)

/-- Spec-side description of the block decomposition: "splits it into
fixed-size blocks (truncating any incomplete trailing block)" — the `i`-th
block is the `blockSize` samples starting at offset `i * blockSize`, and only
the `length / blockSize` complete blocks are kept. -/
def fixedBlocks (blockSize : ℕ) (l : List ℝ) : List (List ℝ) :=
  (List.range (l.length / blockSize)).map fun i => (l.drop (i * blockSize)).take blockSize

/-- The errors `calibrate_noise` can raise: `readError` models the spec's
`CalibrationIOError` (an exception escaping the blocking `sd.rec`/`sd.wait`
read, which `calibrate_noise` does not catch), `splitError` the `ValueError`
raised by `np.split` when asked for zero sections. -/
inductive CalibrationError where
  | readError
  | splitError
deriving DecidableEq

/-- `calibrate_noise`: the blocking recording is passed in as
`recording?` (`none` when the audio source could not be read for the full
duration, in which case the exception propagates).  Mirrors lines 33-63 of
the source: `num_blocks = len(recording) // BLOCK_SIZE`, truncate to full
blocks, `np.split`, RMS per block, `threshold = max_rms * multiplier`
raised to the floor `min_threshold`. -/
noncomputable def calibrate_noise (cfg : Config) (recording? : Option (List ℝ)) :
    Except CalibrationError ℝ :=
  match recording? with
  | none => .error .readError
  | some recording =>
    let num_blocks := recording.length / cfg.blockSize
    let truncated := recording.take (num_blocks * cfg.blockSize)
    match npSplit truncated num_blocks with
    | none => .error .splitError
    | some blocks =>
      let rms_values := blocks.map calculate_rms
      let max_rms := listMax rms_values
      let threshold := max_rms * cfg.silenceThresholdMultiplier
      .ok (max threshold cfg.minThresholdFloor)

/-- The mutable state of the capture loop: `audio_buffer` (the list of
appended blocks), `is_recording`, and `silence_start_time` (`None` encoded
as `none`). -/
structure LoopState where
  audio_buffer : List (List ℝ)
  is_recording : Bool
  silence_start_time : Option ℝ

/-- The initial state of the capture loop (`audio_buffer = []`,
`is_recording = False`, `silence_start_time = None`). -/
def idleState : LoopState := ⟨[], false, none⟩

/-- One iteration of the VAD logic of `main`'s capture loop (lines 136-173),
on one incoming block `indata` at wall-clock time `t`.  Returns the next
state and the list of segments put on the transcription queue during the
iteration (empty or a singleton).  The two `time.time()` calls of one
iteration are modelled as the same instant `t`. -/
noncomputable def captureStep (cfg : Config) (threshold : ℝ) (s : LoopState)
    (indata : List ℝ) (t : ℝ) : LoopState × List (List ℝ) :=
  let rms := calculate_rms indata
  if threshold < rms then
    -- speech detected: reset the buffer on entry to recording, append, clear timer
    let buffer := if s.is_recording then s.audio_buffer else []
    (⟨buffer ++ [indata], true, none⟩, [])
  else if s.is_recording then
    -- silence while recording: the block still belongs to the segment
    let buffer := s.audio_buffer ++ [indata]
    let start := s.silence_start_time.getD t
    if cfg.silenceDuration < t - start then
      let full_audio := buffer.flatten
      let duration := (full_audio.length : ℝ) / (cfg.sampleRate : ℝ)
      if cfg.minRecordingDuration ≤ duration then
        (⟨[], false, none⟩, [full_audio])
      else
        (⟨[], false, none⟩, [])
    else
      (⟨buffer, true, some start⟩, [])
  else
    (s, [])

/-- The warning printed to stderr when `stream.read` reports an overflow. -/
def overflowMsg : String := "Audio buffer overflowed (input)"

/-- One full iteration of the capture loop body (lines 131-173), inlined
from the source: log the overflow warning when `overflowed` is set, then
compute the RMS of `indata` and run the VAD branch logic.  Returns the next
state, the enqueued segments, and the warnings printed this iteration. -/
noncomputable def loopIter (cfg : Config) (threshold : ℝ) (s : LoopState)
    (indata : List ℝ) (overflowed : Bool) (t : ℝ) :
    LoopState × List (List ℝ) × List String :=
  let warnings := if overflowed then [overflowMsg] else []
  let rms := calculate_rms indata
  if threshold < rms then
    let buffer := if s.is_recording then s.audio_buffer else []
    (⟨buffer ++ [indata], true, none⟩, [], warnings)
  else if s.is_recording then
    let buffer := s.audio_buffer ++ [indata]
    let start := s.silence_start_time.getD t
    if cfg.silenceDuration < t - start then
      let full_audio := buffer.flatten
      let duration := (full_audio.length : ℝ) / (cfg.sampleRate : ℝ)
      if cfg.minRecordingDuration ≤ duration then
        (⟨[], false, none⟩, [full_audio], warnings)
      else
        (⟨[], false, none⟩, [], warnings)
    else
      (⟨buffer, true, some start⟩, [], warnings)
  else
    (s, [], warnings)

/-- Iterating `captureStep` over a finite list of `(block, time)` inputs,
collecting every segment enqueued along the way. -/
noncomputable def runCapture (cfg : Config) (threshold : ℝ) :
    LoopState → List (List ℝ × ℝ) → LoopState × List (List ℝ)
  | s, [] => (s, [])
  | s, (b, t) :: rest =>
    let step := captureStep cfg threshold s b t
    let next := runCapture cfg threshold step.1 rest
    (next.1, step.2 ++ next.2)

/-- Python's `str.strip()`: remove leading and trailing whitespace. -/
def pyStrip (s : String) : String :=
  ⟨((s.data.dropWhile Char.isWhitespace).reverse.dropWhile Char.isWhitespace).reverse⟩

/-- The transcription worker thread (`transcribe_worker`, lines 66-93), run
on the finite FIFO list of queue entries; `none` is the `None` shutdown
sentinel.  The external `model.transcribe` is the opaque `transcribe`
argument, which may raise (`Except.error`).  Returns the texts handed to
`type_text` (in order) and the number of `transcription_queue.task_done()`
calls.  The worker `break`s on the sentinel before the `try`/`finally`
block, so a sentinel produces no `task_done`. -/
def transcribe_worker (transcribe : List ℝ → Except String String) :
    List (Option (List ℝ)) → List String × ℕ
  | [] => ([], 0)
  | none :: _ => ([], 0)
  | some audio_data :: rest =>
    let delivered :=
      match transcribe audio_data with
      | .ok raw =>
        let text := pyStrip raw
        if text = "" then [] else [text]
      | .error _ => []
    let next := transcribe_worker transcribe rest
    (delivered ++ next.1, next.2 + 1)

/-- Spec-side description of what the worker delivers for a list of queue
entries: for each segment, the trimmed transcription when it succeeded and
is nonempty. -/
def deliveredList (transcribe : List ℝ → Except String String)
    (entries : List (Option (List ℝ))) : List String :=
  entries.filterMap fun e =>
    match e with
    | none => none
    | some audio_data =>
      match transcribe audio_data with
      | .ok raw =>
        let text := pyStrip raw
        if text = "" then none else some text
      | .error _ => none

/-- A small configuration used to instantiate the general theorems on
concrete inputs: one sample per block, one sample per second. -/
noncomputable def cfgW : Config where
  sampleRate := 1
  blockSize := 1
  silenceThresholdMultiplier := 2
  silenceDuration := 1
  minRecordingDuration := 1
  minThresholdFloor := 1/1000

/-- A concrete transcription function: raises on one-sample segments,
returns `" hello "` otherwise. -/
def trW : List ℝ → Except String String :=
  fun audio_data => if audio_data.length = 1 then .error "backend down" else .ok " hello "

/-- A concrete transcription function that always succeeds. -/
def trOk : List ℝ → Except String String :=
  fun _ => .ok "hi"

/-! ### Helper lemmas about `calculate_rms` -/

theorem rms_nonneg (chunk : List ℝ) : 0 ≤ calculate_rms chunk :=
  Real.sqrt_nonneg _

theorem rms_of_all_zero (chunk : List ℝ) (h : ∀ x ∈ chunk, x = 0) :
    calculate_rms chunk = 0 := by
  have hsum : (chunk.map (fun x => x ^ 2)).sum = 0 := by
    apply List.sum_eq_zero
    intro y hy
    obtain ⟨x, hx, rfl⟩ := List.mem_map.mp hy
    rw [h x hx]; ring
  simp [calculate_rms, hsum]

theorem rms_of_abs_eq (chunk : List ℝ) (a : ℝ) (hne : chunk ≠ [])
    (h : ∀ x ∈ chunk, |x| = a) : calculate_rms chunk = a := by
  have ha : 0 ≤ a := by
    obtain ⟨x, hx⟩ := List.exists_mem_of_ne_nil chunk hne
    rw [← h x hx]; exact abs_nonneg x
  have hsq : ∀ y ∈ chunk.map (fun x => x ^ 2), y = a ^ 2 := by
    intro y hy
    obtain ⟨x, hx, rfl⟩ := List.mem_map.mp hy
    rw [← sq_abs, h x hx]
  have hsum : (chunk.map (fun x => x ^ 2)).sum = (chunk.length : ℝ) * a ^ 2 := by
    rw [List.sum_eq_card_nsmul _ _ hsq]
    simp [List.length_map]
  have hlen : (chunk.length : ℝ) ≠ 0 := by
    simpa using List.length_pos.mpr hne |>.ne'
  rw [calculate_rms, hsum, mul_div_cancel_left₀ _ hlen, Real.sqrt_sq ha]

theorem rms_replicate (n : ℕ) (c : ℝ) (hn : n ≠ 0) :
    calculate_rms (List.replicate n c) = |c| := by
  apply rms_of_abs_eq
  · simp [hn]
  · intro x hx
    rw [List.eq_of_mem_replicate hx]

theorem rms_single (c : ℝ) : calculate_rms [c] = |c| := by
  simpa using rms_replicate 1 c one_ne_zero

/-! ### Helper lemmas about `listMax` -/

theorem le_foldl_max (xs : List ℝ) (a : ℝ) : a ≤ xs.foldl max a := by
  induction xs generalizing a with
  | nil => exact le_refl a
  | cons y ys ih => exact le_trans (le_max_left a y) (ih (max a y))

theorem listMax_nonneg (l : List ℝ) (h : ∀ x ∈ l, 0 ≤ x) : 0 ≤ listMax l := by
  cases l with
  | nil => exact le_refl 0
  | cons x xs => exact le_trans (h x (List.mem_cons_self x xs)) (le_foldl_max xs x)

/-! ### Helper lemmas about `captureStep` and `runCapture` -/

theorem captureStep_speech_rec (cfg : Config) (th : ℝ) (buf : List (List ℝ))
    (t₀ : Option ℝ) (b : List ℝ) (t : ℝ) (h : th < calculate_rms b) :
    captureStep cfg th ⟨buf, true, t₀⟩ b t = (⟨buf ++ [b], true, none⟩, []) := by
  simp [captureStep, h]

theorem captureStep_speech_idle (cfg : Config) (th : ℝ) (s : LoopState) (b : List ℝ) (t : ℝ)
    (h : th < calculate_rms b) (hs : s.is_recording = false) :
    captureStep cfg th s b t = (⟨[b], true, none⟩, []) := by
  simp [captureStep, h, hs]

theorem captureStep_silent_keep (cfg : Config) (th : ℝ) (buf : List (List ℝ))
    (t₀ : Option ℝ) (b : List ℝ) (t : ℝ)
    (hr : calculate_rms b ≤ th) (hkeep : ¬ cfg.silenceDuration < t - t₀.getD t) :
    captureStep cfg th ⟨buf, true, t₀⟩ b t =
      (⟨buf ++ [b], true, some (t₀.getD t)⟩, []) := by
  simp [captureStep, not_lt.mpr hr, hkeep]

theorem captureStep_silent_close (cfg : Config) (th : ℝ) (buf : List (List ℝ))
    (t₀ : Option ℝ) (b : List ℝ) (t : ℝ)
    (hr : calculate_rms b ≤ th) (hclose : cfg.silenceDuration < t - t₀.getD t) :
    captureStep cfg th ⟨buf, true, t₀⟩ b t =
      (⟨[], false, none⟩,
        if cfg.minRecordingDuration ≤ ((buf ++ [b]).flatten.length : ℝ) / (cfg.sampleRate : ℝ)
        then [(buf ++ [b]).flatten] else []) := by
  have h1 : ¬ th < calculate_rms b := not_lt.mpr hr
  simp only [captureStep, h1, if_false, if_true, eq_self_iff_true]
  rw [if_pos hclose]
  split <;> rfl

theorem captureStep_idle_silent (cfg : Config) (th : ℝ) (s : LoopState) (b : List ℝ) (t : ℝ)
    (hr : calculate_rms b ≤ th) (hidle : s.is_recording = false) :
    captureStep cfg th s b t = (s, []) := by
  simp [captureStep, not_lt.mpr hr, hidle]

theorem runCapture_nil (cfg : Config) (th : ℝ) (s : LoopState) :
    runCapture cfg th s [] = (s, []) := rfl

theorem runCapture_cons (cfg : Config) (th : ℝ) (s : LoopState) (b : List ℝ) (t : ℝ)
    (rest : List (List ℝ × ℝ)) :
    runCapture cfg th s ((b, t) :: rest) =
      ((runCapture cfg th (captureStep cfg th s b t).1 rest).1,
        (captureStep cfg th s b t).2 ++
          (runCapture cfg th (captureStep cfg th s b t).1 rest).2) := rfl

theorem runCapture_append (cfg : Config) (th : ℝ) (s : LoopState)
    (l₁ l₂ : List (List ℝ × ℝ)) :
    runCapture cfg th s (l₁ ++ l₂) =
      ((runCapture cfg th (runCapture cfg th s l₁).1 l₂).1,
        (runCapture cfg th s l₁).2 ++ (runCapture cfg th (runCapture cfg th s l₁).1 l₂).2) := by
  induction l₁ generalizing s with
  | nil => simp [runCapture_nil]
  | cons p rest ih =>
    obtain ⟨b, t⟩ := p
    rw [List.cons_append, runCapture_cons, runCapture_cons, ih]
    simp [List.append_assoc]

theorem runCapture_speech (cfg : Config) (th : ℝ) (sp : List (List ℝ × ℝ))
    (hsp : ∀ p ∈ sp, th < calculate_rms p.1) (buf : List (List ℝ)) :
    runCapture cfg th ⟨buf, true, none⟩ sp =
      (⟨buf ++ sp.map Prod.fst, true, none⟩, []) := by
  induction sp generalizing buf with
  | nil => simp [runCapture_nil]
  | cons p rest ih =>
    obtain ⟨b, t⟩ := p
    rw [runCapture_cons, captureStep_speech_rec cfg th buf none b t (hsp (b, t) (by simp))]
    simp only [List.map_cons]
    rw [ih (fun q hq => hsp q (List.mem_cons_of_mem _ hq)) (buf ++ [b])]
    simp

theorem runCapture_speech_from_idle (cfg : Config) (th : ℝ) (sp : List (List ℝ × ℝ))
    (hne : sp ≠ []) (hsp : ∀ p ∈ sp, th < calculate_rms p.1) :
    runCapture cfg th idleState sp = (⟨sp.map Prod.fst, true, none⟩, []) := by
  cases sp with
  | nil => exact absurd rfl hne
  | cons p rest =>
    obtain ⟨b, t⟩ := p
    rw [runCapture_cons, captureStep_speech_idle cfg th idleState b t (hsp (b, t) (by simp)) rfl]
    simp only [List.map_cons]
    rw [runCapture_speech cfg th rest (fun q hq => hsp q (List.mem_cons_of_mem _ hq)) [b]]
    simp

theorem runCapture_silent_keep (cfg : Config) (th t₁ : ℝ) (mid : List (List ℝ × ℝ))
    (hr : ∀ p ∈ mid, calculate_rms p.1 ≤ th)
    (ht : ∀ p ∈ mid, p.2 - t₁ ≤ cfg.silenceDuration) (buf : List (List ℝ)) :
    runCapture cfg th ⟨buf, true, some t₁⟩ mid =
      (⟨buf ++ mid.map Prod.fst, true, some t₁⟩, []) := by
  induction mid generalizing buf with
  | nil => simp [runCapture_nil]
  | cons p rest ih =>
    obtain ⟨b, t⟩ := p
    rw [runCapture_cons,
      captureStep_silent_keep cfg th buf (some t₁) b t (hr (b, t) (by simp))
        (by simpa using not_lt.mpr (ht (b, t) (by simp)))]
    simp only [Option.getD_some, List.map_cons]
    rw [ih (fun q hq => hr q (List.mem_cons_of_mem _ hq))
      (fun q hq => ht q (List.mem_cons_of_mem _ hq)) (buf ++ [b])]
    simp

/-! ### Helper lemmas about `calibrate_noise` -/

theorem chunkExact_take {α : Type} (bs : ℕ) : ∀ (n : ℕ) (l : List α),
    chunkExact n bs (l.take (n * bs)) =
      (List.range n).map (fun i => (l.drop (i * bs)).take bs)
  | 0, l => by simp [chunkExact]
  | n + 1, l => by
    rw [chunkExact]
    have h1 : (l.take ((n + 1) * bs)).take bs = l.take bs := by
      rw [List.take_take]
      congr 1
      exact Nat.min_eq_left (Nat.le_mul_of_pos_left bs (Nat.succ_pos n))
    have h2 : (l.take ((n + 1) * bs)).drop bs = (l.drop bs).take (n * bs) := by
      rw [List.drop_take]
      congr 1
      have h3 : (n + 1) * bs = n * bs + bs := by ring
      omega
    rw [h1, h2, chunkExact_take bs n (l.drop bs), List.range_succ_eq_map]
    simp only [List.map_cons, List.map_map, Nat.zero_mul, List.drop_zero]
    congr 1
    apply List.map_congr_left
    intro i _
    simp only [Function.comp_apply, List.drop_drop]
    congr 2
    have h4 : i.succ * bs = i * bs + bs := Nat.succ_mul i bs
    omega

theorem calibrate_noise_ok (cfg : Config) (rec : List ℝ)
    (hbs : 0 < cfg.blockSize) (hlen : cfg.blockSize ≤ rec.length) :
    calibrate_noise cfg (some rec) =
      .ok (max (listMax ((fixedBlocks cfg.blockSize rec).map calculate_rms) *
        cfg.silenceThresholdMultiplier) cfg.minThresholdFloor) := by
  have hn : rec.length / cfg.blockSize ≠ 0 := by
    have h1 : 1 ≤ rec.length / cfg.blockSize := (Nat.one_le_div_iff hbs).mpr hlen
    omega
  have hlen' : (rec.take (rec.length / cfg.blockSize * cfg.blockSize)).length =
      rec.length / cfg.blockSize * cfg.blockSize := by
    rw [List.length_take]
    exact Nat.min_eq_left (Nat.div_mul_le_self _ _)
  have hsplit : npSplit (rec.take (rec.length / cfg.blockSize * cfg.blockSize))
      (rec.length / cfg.blockSize) =
      some (chunkExact (rec.length / cfg.blockSize) cfg.blockSize
        (rec.take (rec.length / cfg.blockSize * cfg.blockSize))) := by
    rw [npSplit, if_neg hn, hlen']
    rw [if_neg (by simp [Nat.mul_mod_right]),
      Nat.mul_div_cancel_left _ (Nat.pos_of_ne_zero hn)]
  simp only [calibrate_noise, hsplit]
  rw [chunkExact_take]
  rfl

theorem calibrate_noise_ok_shape (cfg : Config) (rec : List ℝ) (t : ℝ)
    (h : calibrate_noise cfg (some rec) = .ok t) :
    ∃ blocks,
      npSplit (rec.take (rec.length / cfg.blockSize * cfg.blockSize))
        (rec.length / cfg.blockSize) = some blocks ∧
      t = max (listMax (blocks.map calculate_rms) * cfg.silenceThresholdMultiplier)
        cfg.minThresholdFloor := by
  simp only [calibrate_noise] at h
  cases hsp : npSplit (rec.take (rec.length / cfg.blockSize * cfg.blockSize))
      (rec.length / cfg.blockSize) with
  | none => rw [hsp] at h; cases h
  | some blocks =>
    rw [hsp] at h
    exact ⟨blocks, rfl, (Except.ok.inj h).symm⟩

theorem calibrate_noise_short (cfg : Config) (rec : List ℝ)
    (hlen : rec.length < cfg.blockSize) :
    calibrate_noise cfg (some rec) = .error .splitError := by
  have hn : rec.length / cfg.blockSize = 0 := Nat.div_eq_of_lt hlen
  simp [calibrate_noise, hn, npSplit]

theorem listMax_map_rms_nonneg (blocks : List (List ℝ)) :
    0 ≤ listMax (blocks.map calculate_rms) := by
  apply listMax_nonneg
  intro x hx
  obtain ⟨b, _, rfl⟩ := List.mem_map.mp hx
  exact rms_nonneg b

/-! ### Helper lemmas about `transcribe_worker` -/

theorem transcribe_worker_sentinel (tr : List ℝ → Except String String)
    (rest : List (Option (List ℝ))) :
    transcribe_worker tr (none :: rest) = ([], 0) := rfl

theorem transcribe_worker_cons_ok (tr : List ℝ → Except String String)
    (audio : List ℝ) (rest : List (Option (List ℝ))) (raw : String)
    (h : tr audio = .ok raw) :
    transcribe_worker tr (some audio :: rest) =
      ((if pyStrip raw = "" then [] else [pyStrip raw]) ++ (transcribe_worker tr rest).1,
        (transcribe_worker tr rest).2 + 1) := by
  simp [transcribe_worker, h]

theorem transcribe_worker_cons_err (tr : List ℝ → Except String String)
    (audio : List ℝ) (rest : List (Option (List ℝ))) (e : String)
    (h : tr audio = .error e) :
    transcribe_worker tr (some audio :: rest) =
      ((transcribe_worker tr rest).1, (transcribe_worker tr rest).2 + 1) := by
  simp [transcribe_worker, h]

theorem transcribe_worker_drain (tr : List ℝ → Except String String)
    (pre post : List (Option (List ℝ))) (hpre : none ∉ pre) :
    transcribe_worker tr (pre ++ none :: post) = (deliveredList tr pre, pre.length) := by
  induction pre with
  | nil => simp [deliveredList, transcribe_worker_sentinel]
  | cons e rest ih =>
    have hrest : none ∉ rest := fun h => hpre (List.mem_cons_of_mem _ h)
    cases e with
    | none => exact absurd (List.mem_cons_self _ _) hpre
    | some audio =>
      cases htr : tr audio with
      | ok raw =>
        rw [List.cons_append, transcribe_worker_cons_ok tr audio _ raw htr, ih hrest]
        simp only [deliveredList, List.filterMap_cons, htr, List.length_cons]
        split <;> simp [deliveredList]
      | error e =>
        rw [List.cons_append, transcribe_worker_cons_err tr audio _ e htr, ih hrest]
        simp [deliveredList, List.filterMap_cons, htr]

/-! ### Claim theorems -/

/-- C9: for every AudioBlock, the RMS Meter returns the non-negative
root-mean-square of its samples: an all-zero block yields 0, and a (nonempty)
block in which every sample has magnitude `a` yields `a`. -/
theorem c9_rms_meter (chunk : List ℝ) (a : ℝ) :
    0 ≤ calculate_rms chunk ∧
    ((∀ x ∈ chunk, x = 0) → calculate_rms chunk = 0) ∧
    (chunk ≠ [] → (∀ x ∈ chunk, |x| = a) → calculate_rms chunk = a) :=
  ⟨rms_nonneg chunk, rms_of_all_zero chunk, fun hne h => rms_of_abs_eq chunk a hne h⟩

/-- Witness for C9: the block `[3, -3]` has all samples of magnitude 3 and
RMS exactly 3. -/
theorem c9_rms_meter_witness : calculate_rms [(3 : ℝ), -3] = 3 :=
  (c9_rms_meter [(3 : ℝ), -3] 3).2.2 (by simp)
    (by intro x hx; rcases List.mem_pair.mp hx with rfl | rfl <;> norm_num)

/-- C4: calibration splits the captured recording into fixed-size blocks
(truncating any incomplete trailing block), computes the RMS of each block,
and returns `threshold = max(max(rms_values) * silenceThresholdMultiplier,
minThresholdFloor)`. -/
theorem c4_calibration_formula (cfg : Config) (rec : List ℝ)
    (hbs : 0 < cfg.blockSize) (hlen : cfg.blockSize ≤ rec.length) :
    calibrate_noise cfg (some rec) =
      .ok (max (listMax ((fixedBlocks cfg.blockSize rec).map calculate_rms) *
        cfg.silenceThresholdMultiplier) cfg.minThresholdFloor) :=
  calibrate_noise_ok cfg rec hbs hlen

/-- Witness for C4 at a one-sample recording with a one-sample block size. -/
theorem c4_calibration_formula_witness :
    calibrate_noise cfgW (some [(0 : ℝ)]) =
      .ok (max (listMax ((fixedBlocks cfgW.blockSize [(0 : ℝ)]).map calculate_rms) *
        cfgW.silenceThresholdMultiplier) cfgW.minThresholdFloor) :=
  c4_calibration_formula cfgW [0] (by norm_num [cfgW]) (by norm_num [cfgW])

/-- C5: for a fixed calibration recording the returned threshold is
monotonically non-decreasing in the multiplier, and never below
`minThresholdFloor`. -/
theorem c5_threshold_monotone (cfg : Config) (rec : List ℝ) (m₁ m₂ t₁ t₂ : ℝ)
    (hm : m₁ ≤ m₂)
    (h₁ : calibrate_noise {cfg with silenceThresholdMultiplier := m₁} (some rec) = .ok t₁)
    (h₂ : calibrate_noise {cfg with silenceThresholdMultiplier := m₂} (some rec) = .ok t₂) :
    t₁ ≤ t₂ ∧ cfg.minThresholdFloor ≤ t₁ := by
  obtain ⟨blocks₁, hsp₁, ht₁⟩ := calibrate_noise_ok_shape _ rec t₁ h₁
  obtain ⟨blocks₂, hsp₂, ht₂⟩ := calibrate_noise_ok_shape _ rec t₂ h₂
  have hb : blocks₁ = blocks₂ := Option.some.inj (hsp₁.symm.trans hsp₂)
  subst hb
  subst ht₁
  subst ht₂
  constructor
  · exact max_le_max
      (mul_le_mul_of_nonneg_left hm (listMax_map_rms_nonneg blocks₁)) le_rfl
  · exact le_max_right _ _

/-- Witness for C5 on a one-sample silent recording: thresholds for
multipliers 1 and 2 both evaluate to the floor `1/1000`. -/
theorem c5_threshold_monotone_witness :
    (1 / 1000 : ℝ) ≤ 1 / 1000 ∧ cfgW.minThresholdFloor ≤ 1 / 1000 := by
  have hfb : fixedBlocks 1 [(0 : ℝ)] = [[0]] := by
    simp [fixedBlocks, List.range_succ]
  have h₁ : calibrate_noise {cfgW with silenceThresholdMultiplier := (1 : ℝ)}
      (some [(0 : ℝ)]) = .ok (1 / 1000) := by
    rw [calibrate_noise_ok _ _ (by norm_num [cfgW]) (by norm_num [cfgW])]
    simp [cfgW, hfb, listMax, rms_single]
  have h₂ : calibrate_noise {cfgW with silenceThresholdMultiplier := (2 : ℝ)}
      (some [(0 : ℝ)]) = .ok (1 / 1000) := by
    rw [calibrate_noise_ok _ _ (by norm_num [cfgW]) (by norm_num [cfgW])]
    simp [cfgW, hfb, listMax, rms_single]
  exact c5_threshold_monotone cfgW [0] 1 2 (1 / 1000) (1 / 1000) (by norm_num) h₁ h₂

/-- C3: when the audio source cannot be read for the full calibration
duration, `calibrate_noise` fails with the distinguished read error (the
spec's `CalibrationIOError`); a threshold is returned only when the full
recording was captured. -/
theorem c3_calibration_read_failure (cfg : Config) :
    calibrate_noise cfg none = .error CalibrationError.readError ∧
    ∀ (recording? : Option (List ℝ)) (t : ℝ),
      calibrate_noise cfg recording? = .ok t → recording? ≠ none := by
  refine ⟨rfl, ?_⟩
  intro recording? t h hnone
  subst hnone
  simp [calibrate_noise] at h

/-- Witness for C3 at the source's default configuration. -/
theorem c3_calibration_read_failure_witness :
    calibrate_noise defaultConfig none = .error CalibrationError.readError :=
  (c3_calibration_read_failure defaultConfig).1

/-- C10: calibration (on a successfully captured recording) returns a
threshold exactly when the recording holds at least one full block; a
shorter recording makes `np.split` raise instead of returning a
threshold. -/
theorem c10_calibration_totality (cfg : Config) (rec : List ℝ)
    (hbs : 0 < cfg.blockSize) :
    ((∃ t, calibrate_noise cfg (some rec) = .ok t) ↔ cfg.blockSize ≤ rec.length) ∧
    (rec.length < cfg.blockSize →
      calibrate_noise cfg (some rec) = .error CalibrationError.splitError) := by
  constructor
  · constructor
    · rintro ⟨t, ht⟩
      by_contra hlt
      rw [calibrate_noise_short cfg rec (not_le.mp hlt)] at ht
      cases ht
    · intro hle
      exact ⟨_, calibrate_noise_ok cfg rec hbs hle⟩
  · exact calibrate_noise_short cfg rec

/-- Witness for C10 at a one-sample recording and block size one. -/
theorem c10_calibration_totality_witness :
    ((∃ t, calibrate_noise cfgW (some [(0 : ℝ)]) = .ok t) ↔
      cfgW.blockSize ≤ [(0 : ℝ)].length) ∧
    ([(0 : ℝ)].length < cfgW.blockSize →
      calibrate_noise cfgW (some [(0 : ℝ)]) = .error CalibrationError.splitError) :=
  c10_calibration_totality cfgW [0] (by norm_num [cfgW])

/-- C7: for every non-sentinel queue entry the worker invokes the
transcription function, strips surrounding whitespace, and delivers the text
if and only if the stripped text is non-empty; an exception from the
transcription function is caught (nothing delivered) and the worker
continues to the next entry, acknowledging the entry either way. -/
theorem c7_worker_per_entry (tr : List ℝ → Except String String) (audio : List ℝ)
    (rest : List (Option (List ℝ))) :
    (∀ e, tr audio = .error e →
      transcribe_worker tr (some audio :: rest) =
        ((transcribe_worker tr rest).1, (transcribe_worker tr rest).2 + 1)) ∧
    (∀ raw, tr audio = .ok raw →
      transcribe_worker tr (some audio :: rest) =
        ((if pyStrip raw = "" then [] else [pyStrip raw]) ++ (transcribe_worker tr rest).1,
          (transcribe_worker tr rest).2 + 1)) :=
  ⟨fun e h => transcribe_worker_cons_err tr audio rest e h,
   fun raw h => transcribe_worker_cons_ok tr audio rest raw h⟩

/-- Witness for C7: segment A (`[1]`) raises, segment B (`[0, 0]`) yields
`" hello "`; the worker delivers exactly `"hello"` and stays alive through
both entries (two acknowledgements). -/
theorem c7_worker_per_entry_witness :
    transcribe_worker trW [some [(1 : ℝ)], some [(0 : ℝ), 0], none] = (["hello"], 2) := by
  rw [(c7_worker_per_entry trW [(1 : ℝ)] [some [(0 : ℝ), 0], none]).1 "backend down" rfl]
  rw [(c7_worker_per_entry trW [(0 : ℝ), 0] [none]).2 " hello " rfl]
  decide

/-- C8 counterexample: the worker `break`s on the sentinel before the
`finally` block, so the sentinel entry is dequeued but never acknowledged:
for the queue `[segment, sentinel]` the `task_done` count is 1 (the prior
entry only), not 2 as acknowledging the sentinel would give. -/
theorem c8_sentinel_cex :
    (transcribe_worker trOk [some [(0 : ℝ)], none]).2 = 1 ∧
    (transcribe_worker trOk [some [(0 : ℝ)], none]).2 ≠ 2 := by
  decide

/-- C8 (amended): after the sentinel is enqueued the worker dequeues and
processes every entry enqueued before the sentinel in FIFO order,
acknowledging each such entry, then terminates its loop upon dequeuing the
sentinel (not before) — without acknowledging the sentinel entry itself. -/
theorem c8_sentinel_drain (tr : List ℝ → Except String String)
    (pre post : List (Option (List ℝ))) (hpre : none ∉ pre) :
    transcribe_worker tr (pre ++ none :: post) = (deliveredList tr pre, pre.length) :=
  transcribe_worker_drain tr pre post hpre

/-- Witness for C8: two segments before the sentinel are both processed in
order and acknowledged; the entry after the sentinel is never processed. -/
theorem c8_sentinel_drain_witness :
    transcribe_worker trOk [some [(0 : ℝ)], some [(1 : ℝ)], none, some [(2 : ℝ)]] =
      (["hi", "hi"], 2) := by
  have h := c8_sentinel_drain trOk [some [(0 : ℝ)], some [(1 : ℝ)]] [some [(2 : ℝ)]]
    (by simp)
  simp only [List.cons_append, List.nil_append] at h
  rw [h]
  decide

/-- C6 (amended): an overflow signalled by the device is logged as a
non-fatal warning and the capture loop continues, but the overflowed window
is NOT skipped: the block is fed to the RMS meter and the VAD state machine
exactly as it would be without an overflow. -/
theorem c6_overflow_logged_not_skipped (cfg : Config) (th : ℝ) (s : LoopState)
    (b : List ℝ) (t : ℝ) :
    (∀ ov : Bool,
      ((loopIter cfg th s b ov t).1, (loopIter cfg th s b ov t).2.1) =
        captureStep cfg th s b t) ∧
    (loopIter cfg th s b true t).2.2 = [overflowMsg] ∧
    (loopIter cfg th s b false t).2.2 = [] := by
  refine ⟨fun ov => ?_, ?_, ?_⟩ <;>
    · simp only [loopIter, captureStep]
      split_ifs <;> simp_all

/-- C6 counterexample: with `overflowed = true` and a loud block arriving in
`Idle`, the block is fed to the RMS meter and the VAD machine — recording
starts and the block is buffered — contradicting the claim that the
overflowed window is skipped. -/
theorem c6_overflow_cex :
    (loopIter defaultConfig (1/2) idleState [(1 : ℝ)] true 0).1.is_recording = true ∧
    (loopIter defaultConfig (1/2) idleState [(1 : ℝ)] true 0).1.audio_buffer =
      [[(1 : ℝ)]] ∧
    (loopIter defaultConfig (1/2) idleState [(1 : ℝ)] true 0).2.2 = [overflowMsg] := by
  norm_num [loopIter, rms_single, idleState]

/-- C1 counterexample: with the source's configuration (`silenceDuration =
2`), a silent block arriving exactly `silenceDuration` after the silence
began does NOT close the segment (the source compares with `>`, not `≥`):
the machine is still recording and nothing was enqueued. -/
theorem c1_close_at_exact_silence_cex :
    (captureStep defaultConfig (1/2) ⟨[[(1 : ℝ)]], true, some 0⟩ [0] 2).1.is_recording =
      true ∧
    (captureStep defaultConfig (1/2) ⟨[[(1 : ℝ)]], true, some 0⟩ [0] 2).2 = [] := by
  have h := captureStep_silent_keep defaultConfig (1/2) [[(1 : ℝ)]] (some 0) [0] 2
    (by rw [rms_single]; norm_num)
    (by norm_num [defaultConfig])
  rw [h]
  exact ⟨rfl, rfl⟩

/-- C1 (amended): in `Recording`, a block with RMS ≤ threshold is appended
to the segment buffer and the silence timer is set to the current time `t`
if it was unset; the segment closes exactly when the elapsed silence
STRICTLY exceeds `silenceDuration` (the source uses `>`, not `≥`).  In
particular, feeding speech blocks followed by silent blocks — the last of
which arrives strictly more than `silenceDuration` after the silence began,
the earlier ones at most `silenceDuration` after it — closes exactly one
segment containing all the speech blocks plus the trailing silent blocks,
provided the total duration reaches `minRecordingDuration`. -/
theorem c1_silence_closes_strictly :
    (∀ (cfg : Config) (th : ℝ) (s : LoopState) (b : List ℝ) (t : ℝ),
      s.is_recording = true → calculate_rms b ≤ th →
      ((¬ cfg.silenceDuration < t - s.silence_start_time.getD t →
        captureStep cfg th s b t =
          (⟨s.audio_buffer ++ [b], true, some (s.silence_start_time.getD t)⟩, [])) ∧
       (cfg.silenceDuration < t - s.silence_start_time.getD t →
        captureStep cfg th s b t =
          (⟨[], false, none⟩,
            if cfg.minRecordingDuration ≤
                (((s.audio_buffer ++ [b]).flatten.length : ℝ) / (cfg.sampleRate : ℝ))
            then [(s.audio_buffer ++ [b]).flatten] else [])))) ∧
    (∀ (cfg : Config) (th : ℝ) (sp : List (List ℝ × ℝ)) (b₁ : List ℝ) (t₁ : ℝ)
      (mid : List (List ℝ × ℝ)) (bl : List ℝ) (tl : ℝ),
      sp ≠ [] →
      (∀ p ∈ sp, th < calculate_rms p.1) →
      calculate_rms b₁ ≤ th →
      (∀ p ∈ mid, calculate_rms p.1 ≤ th) →
      calculate_rms bl ≤ th →
      0 ≤ cfg.silenceDuration →
      (∀ p ∈ mid, p.2 - t₁ ≤ cfg.silenceDuration) →
      cfg.silenceDuration < tl - t₁ →
      cfg.minRecordingDuration ≤
        (((sp.map Prod.fst ++ b₁ :: mid.map Prod.fst ++ [bl]).flatten.length : ℝ) /
          (cfg.sampleRate : ℝ)) →
      runCapture cfg th idleState (sp ++ (b₁, t₁) :: mid ++ [(bl, tl)]) =
        (idleState, [(sp.map Prod.fst ++ b₁ :: mid.map Prod.fst ++ [bl]).flatten])) := by
  constructor
  · intro cfg th s b t hrec hr
    obtain ⟨buf, srec, t₀⟩ := s
    simp only [LoopState.is_recording] at hrec
    subst hrec
    exact ⟨fun hkeep => captureStep_silent_keep cfg th buf t₀ b t hr hkeep,
           fun hclose => captureStep_silent_close cfg th buf t₀ b t hr hclose⟩
  · intro cfg th sp b₁ t₁ mid bl tl hne hsp hb₁ hmid hbl hpos hmidt hclose hdur
    have h1 : runCapture cfg th idleState sp = (⟨sp.map Prod.fst, true, none⟩, []) :=
      runCapture_speech_from_idle cfg th sp hne hsp
    have h2 : captureStep cfg th ⟨sp.map Prod.fst, true, none⟩ b₁ t₁ =
        (⟨sp.map Prod.fst ++ [b₁], true, some t₁⟩, []) := by
      have hk := captureStep_silent_keep cfg th (sp.map Prod.fst) none b₁ t₁ hb₁
        (by simpa [sub_self, not_lt] using hpos)
      simpa using hk
    have h3 : runCapture cfg th ⟨sp.map Prod.fst ++ [b₁], true, some t₁⟩ mid =
        (⟨sp.map Prod.fst ++ [b₁] ++ mid.map Prod.fst, true, some t₁⟩, []) :=
      runCapture_silent_keep cfg th t₁ mid hmid hmidt _
    have h4 : captureStep cfg th
        ⟨sp.map Prod.fst ++ [b₁] ++ mid.map Prod.fst, true, some t₁⟩ bl tl =
        (⟨[], false, none⟩,
          [(sp.map Prod.fst ++ b₁ :: mid.map Prod.fst ++ [bl]).flatten]) := by
      rw [captureStep_silent_close cfg th _ (some t₁) bl tl hbl (by simpa using hclose)]
      have hlist : sp.map Prod.fst ++ [b₁] ++ mid.map Prod.fst ++ [bl] =
          sp.map Prod.fst ++ b₁ :: mid.map Prod.fst ++ [bl] := by simp
      rw [hlist, if_pos hdur]
    rw [runCapture_append, runCapture_append, h1]
    dsimp only
    rw [runCapture_cons cfg th ⟨sp.map Prod.fst, true, none⟩ b₁ t₁ mid, h2]
    dsimp only
    rw [h3]
    dsimp only
    rw [runCapture_cons cfg th
      ⟨sp.map Prod.fst ++ [b₁] ++ mid.map Prod.fst, true, some t₁⟩ bl tl [], h4]
    dsimp only
    rw [runCapture_nil]
    simp [idleState]

/-- Witness for C1: a non-closing silent step at elapsed silence `1/2 <
silenceDuration = 1`, and a full scenario — one speech block, then silence
beginning at `t = 1`, closed by a silent block at `t = 3` — emitting exactly
one segment `[1, 0, 0]`. -/
theorem c1_silence_closes_strictly_witness :
    captureStep cfgW (1/2) ⟨[[(1 : ℝ)]], true, some 0⟩ [0] (1/2) =
      (⟨[[(1 : ℝ)], [0]], true, some 0⟩, []) ∧
    runCapture cfgW (1/2) idleState [([(1 : ℝ)], 0), ([0], 1), ([0], 3)] =
      (idleState, [[(1 : ℝ), 0, 0]]) := by
  constructor
  · have h := (c1_silence_closes_strictly.1 cfgW (1/2) ⟨[[(1 : ℝ)]], true, some 0⟩ [0]
      (1/2) rfl (by rw [rms_single]; norm_num)).1 (by norm_num [cfgW])
    simpa using h
  · have h := c1_silence_closes_strictly.2 cfgW (1/2) [([(1 : ℝ)], 0)] [0] 1 [] [0] 3
      (by simp)
      (by intro p hp; simp at hp; subst hp; rw [rms_single]; norm_num)
      (by rw [rms_single]; norm_num)
      (by simp)
      (by rw [rms_single]; norm_num)
      (by norm_num [cfgW])
      (by simp)
      (by norm_num [cfgW])
      (by norm_num [cfgW])
    simpa using h

/-- C2: a segment closed by the silence timeout is enqueued if and only if
its total duration (samples divided by the sample rate) reaches
`minRecordingDuration`; a shorter segment is discarded and never enters the
queue; in both cases the machine resets to `Idle` with an empty buffer and
an unset silence timer. -/
theorem c2_min_duration_gate (cfg : Config) (th : ℝ) (s : LoopState) (b : List ℝ)
    (t : ℝ) (hrec : s.is_recording = true) (hr : calculate_rms b ≤ th)
    (hclose : cfg.silenceDuration < t - s.silence_start_time.getD t) :
    ((captureStep cfg th s b t).2 = [(s.audio_buffer ++ [b]).flatten] ↔
      cfg.minRecordingDuration ≤
        (((s.audio_buffer ++ [b]).flatten.length : ℝ) / (cfg.sampleRate : ℝ))) ∧
    ((((s.audio_buffer ++ [b]).flatten.length : ℝ) / (cfg.sampleRate : ℝ)) <
        cfg.minRecordingDuration → (captureStep cfg th s b t).2 = []) ∧
    (captureStep cfg th s b t).1 = idleState := by
  obtain ⟨buf, srec, t₀⟩ := s
  simp only [LoopState.is_recording] at hrec
  subst hrec
  rw [captureStep_silent_close cfg th buf t₀ b t hr hclose]
  dsimp only
  refine ⟨⟨fun h => ?_, fun h => by rw [if_pos h]⟩,
    fun h => by rw [if_neg (not_le.mpr h)], rfl⟩
  by_contra hlt
  rw [if_neg hlt] at h
  exact List.cons_ne_nil _ _ h.symm

/-- Witness for C2: a closing step whose segment `[1, 0]` lasts 2 seconds
(≥ `minRecordingDuration = 1` of `cfgW`) is enqueued, and the machine
resets to `Idle`. -/
theorem c2_min_duration_gate_witness :
    (captureStep cfgW (1/2) ⟨[[(1 : ℝ)]], true, some 0⟩ [0] 3).2 = [[(1 : ℝ), 0]] ∧
    (captureStep cfgW (1/2) ⟨[[(1 : ℝ)]], true, some 0⟩ [0] 3).1 = idleState := by
  have h := c2_min_duration_gate cfgW (1/2) ⟨[[(1 : ℝ)]], true, some 0⟩ [0] 3 rfl
    (by rw [rms_single]; norm_num) (by norm_num [cfgW])
  exact ⟨by simpa using h.1.mpr (by norm_num [cfgW]), h.2.2⟩

end LiveTranscribe
